import Mathlib

/-!
Verification of the elkodon shared-memory IPC middleware against its
natural-language specification.  The Lean definitions below are shallow
embeddings of the Rust sources:

* `elkodon_bb_lock_free::spsc::safely_overflowing_index_queue`
* `elkodon_bb_lock_free::spsc::index_queue`
* `elkodon::service::dynamic_config`
* `elkodon_cal::static_storage::file`
* `elkodon::port::subscriber`, `elkodon::port::notifier`

Machine integers (`usize`, `u64`) are modelled as `Nat`; arrays as `List Nat`
indexed modulo their length, exactly as the Rust `at()` helpers do.  The SPSC
queues are proved over the sequential (single-producer, single-consumer,
interleaved) semantics, which is the setting of the specification's
functional claims; atomics then degenerate to plain reads and writes and
every CAS taken by the single mutating party succeeds.
-/

set_option maxRecDepth 4000

namespace Elkodon

/-! ### List helpers -/

/-- Reading a modified cell: writing at the index being read. -/
theorem getD_set_eq (l : List Nat) (i v d : Nat) (h : i < l.length) :
    (l.set i v).getD i d = v := by
  simp [List.getD_eq_getElem?_getD, List.getElem?_set_self, h]

/-- Reading a cell other than the one written. -/
theorem getD_set_ne (l : List Nat) (i j v d : Nat) (h : i ≠ j) :
    (l.set i v).getD j d = l.getD j d := by
  simp [List.getD_eq_getElem?_getD, List.getElem?_set_ne h]

/-- Enumerating a suffix of a list cell by cell yields `List.drop`. -/
theorem rangeMap_getD_eq_drop (l : List Nat) (r : Nat) (h : r ≤ l.length) :
    (List.range (l.length - r)).map (fun i => l.getD (r + i) 0) = l.drop r := by
  apply List.ext_getElem
  · simp
  · intro j h1 h2
    have hj : j < l.length - r := by simpa using h1
    have hrj : r + j < l.length := by omega
    simp [List.getD_eq_getElem?_getD, List.getElem?_eq_getElem hrj]

/-- Distinct positions at distance less than the ring size occupy distinct
cells. -/
theorem mod_ne_of_dist_lt {m i j : Nat} (hij : i < j) (hsub : j - i < m) :
    i % m ≠ j % m := by
  intro hmod
  have hdvd : m ∣ j - i := (Nat.modEq_iff_dvd' (Nat.le_of_lt hij)).1 hmod
  have := Nat.le_of_dvd (by omega) hdvd
  omega

/-- Reading the last cell of a one-element extension. -/
theorem getD_concat_length (l : List Nat) (v d : Nat) :
    (l ++ [v]).getD l.length d = v := by
  induction l with
  | nil => rfl
  | cons x xs ih => exact ih

/-- Reading inside the unextended part of a one-element extension. -/
theorem getD_append_left (l l' : List Nat) (i d : Nat) (h : i < l.length) :
    (l ++ l').getD i d = l.getD i d := by
  simp [List.getD_eq_getElem?_getD, List.getElem?_append_left h]

/-! ### Safely overflowing SPSC index queue
(`elkodon_bb/lock_free/src/spsc/safely_overflowing_index_queue.rs`)

The Rust struct stores `capacity + 1` cells; `at(p)` reads cell
`p % (capacity + 1)`.  `push` writes the new value, bumps the write position
and, when the queue was full, advances the read position by one and returns
the evicted value. -/

structure SafelyOverflowingIndexQueue where
  capacity : Nat
  data : List Nat
  write_position : Nat
  read_position : Nat

namespace SafelyOverflowingIndexQueue

/-- `SafelyOverflowingIndexQueue::new(capacity)`: `capacity + 1` zeroed cells. -/
def new (capacity : Nat) : SafelyOverflowingIndexQueue :=
  { capacity := capacity
    data := List.replicate (capacity + 1) 0
    write_position := 0
    read_position := 0 }

/-- `at(position)`: the cell at `position % (capacity + 1)`. -/
def atPos (q : SafelyOverflowingIndexQueue) (position : Nat) : Nat :=
  q.data.getD (position % (q.capacity + 1)) 0

/-- `push(value)`.  Sequential semantics of the source: read both positions,
write the value into the write slot, advance the write position; when the
queue was full additionally advance the read position (the CAS taken by the
only mutating thread succeeds) and return the value of the old read slot,
which is read from the array after the write of `value`. -/
def push (q : SafelyOverflowingIndexQueue) (value : Nat) :
    SafelyOverflowingIndexQueue × Option Nat :=
  let write_position := q.write_position
  let read_position := q.read_position
  let q1 : SafelyOverflowingIndexQueue :=
    { q with
      data := q.data.set (write_position % (q.capacity + 1)) value
      write_position := write_position + 1 }
  if write_position = read_position + q.capacity then
    ({ q1 with read_position := read_position + 1 }, some (q1.atPos read_position))
  else
    (q1, none)

/-- `pop()`. Sequential semantics: empty test, then read the slot and advance
the read position. -/
def pop (q : SafelyOverflowingIndexQueue) : SafelyOverflowingIndexQueue × Option Nat :=
  if q.read_position = q.write_position then (q, none)
  else ({ q with read_position := q.read_position + 1 }, some (q.atPos q.read_position))

/-- `len()`: distance between the positions. -/
def size (q : SafelyOverflowingIndexQueue) : Nat := q.write_position - q.read_position

/-- The values currently held, oldest first: the cells at positions
`read_position, read_position+1, …, write_position-1`. -/
def contents (q : SafelyOverflowingIndexQueue) : List Nat :=
  (List.range q.size).map (fun i => q.atPos (q.read_position + i))

/-- Push every value of the list, left to right, discarding eviction results. -/
def pushAll (q : SafelyOverflowingIndexQueue) (vs : List Nat) :
    SafelyOverflowingIndexQueue :=
  vs.foldl (fun acc v => (acc.push v).1) q


/-- Invariant tying a queue state to the full history `vs` of pushed values:
the write position equals the number of pushes, the read position trails it by
the number of retained values, and the ring holds the pushed values at their
history positions. -/
def Inv (vs : List Nat) (q : SafelyOverflowingIndexQueue) : Prop :=
  q.data.length = q.capacity + 1 ∧
  q.write_position = vs.length ∧
  q.read_position = vs.length - min vs.length q.capacity ∧
  ∀ i, q.read_position ≤ i → i < vs.length → q.atPos i = vs.getD i 0

theorem inv_new (C : Nat) : Inv [] (new C) := by
  refine ⟨by simp [new], rfl, by simp [new], ?_⟩
  intro i _ h
  simp at h

/-- A `push` does not change the capacity. -/
theorem capacity_push (q : SafelyOverflowingIndexQueue) (v : Nat) :
    (q.push v).1.capacity = q.capacity := by
  simp only [push]
  split <;> rfl

/-- `pushAll` does not change the capacity. -/
theorem capacity_pushAll (vs : List Nat) :
    ∀ q : SafelyOverflowingIndexQueue, (q.pushAll vs).capacity = q.capacity := by
  induction vs with
  | nil => intro q; rfl
  | cons v vs ih =>
    intro q
    have h1 := ih (q.push v).1
    simpa [pushAll, capacity_push] using h1

/-- One `push` preserves the history invariant; it returns `none` while the
history is shorter than the capacity and the evicted history value
afterwards. -/
theorem inv_push (vs : List Nat) (q : SafelyOverflowingIndexQueue) (v : Nat)
    (h : Inv vs q) :
    Inv (vs ++ [v]) (q.push v).1 ∧
      (q.push v).2 =
        if vs.length < q.capacity then none
        else some ((vs ++ [v]).getD (vs.length - q.capacity) 0) := by
  obtain ⟨cap, data, w, r⟩ := q
  obtain ⟨hlen, hw, hr, hdata⟩ := h
  dsimp only at hlen hw hr
  subst hw
  subst hr
  simp only [atPos] at hdata
  dsimp only at hdata ⊢
  by_cases hlt : vs.length < cap
  · have hcond : ¬ vs.length = vs.length - min vs.length cap + cap := by omega
    simp only [push, atPos]
    try dsimp only
    rw [if_neg hcond, if_pos hlt]
    refine ⟨⟨by simpa using hlen, by simp, by simp; omega, ?_⟩, rfl⟩
    intro i hi hilt
    simp only [atPos]
    try dsimp only at hi ⊢
    have hi2 : i < vs.length + 1 := by simpa using hilt
    have hiC : i % (cap + 1) = i := Nat.mod_eq_of_lt (by omega)
    have hwC : vs.length % (cap + 1) = vs.length := Nat.mod_eq_of_lt (by omega)
    rcases Nat.lt_or_ge i vs.length with hcase | hcase
    · rw [hwC, hiC, getD_set_ne data vs.length i v 0 (by omega)]
      have hd := hdata i (by omega) hcase
      rw [hiC] at hd
      rw [hd, getD_append_left vs [v] i 0 hcase]
    · have hieq : i = vs.length := by omega
      subst hieq
      rw [hwC, getD_set_eq data vs.length v 0 (by omega)]
      exact (getD_concat_length vs v 0).symm
  · have hge : cap ≤ vs.length := by omega
    have hmin : vs.length - min vs.length cap = vs.length - cap := by omega
    have hcond : vs.length = vs.length - min vs.length cap + cap := by omega
    simp only [push, atPos]
    try dsimp only
    rw [if_pos hcond, if_neg hlt]
    constructor
    · refine ⟨by simpa using hlen, by simp, by simp; omega, ?_⟩
      intro i hi hilt
      simp only [atPos]
      try dsimp only at hi ⊢
      have hi2 : i < vs.length + 1 := by simpa using hilt
      have hi3 : vs.length - cap + 1 ≤ i := by omega
      rcases Nat.lt_or_ge i vs.length with hcase | hcase
      · have hne : vs.length % (cap + 1) ≠ i % (cap + 1) :=
          (mod_ne_of_dist_lt hcase (by omega)).symm
        rw [getD_set_ne data _ _ v 0 hne]
        have hd := hdata i (by omega) hcase
        rw [hd, getD_append_left vs [v] i 0 hcase]
      · have hieq : i = vs.length := by omega
        subst hieq
        rw [getD_set_eq data _ v 0 (by rw [hlen]; exact Nat.mod_lt _ (by omega))]
        exact (getD_concat_length vs v 0).symm
    · rw [hmin]
      rcases Nat.eq_zero_or_pos cap with hC0 | hCpos
      · subst hC0
        have hreq : (vs.length - 0) % (0 + 1) = vs.length % (0 + 1) := by
          simp
        rw [hreq, getD_set_eq data _ v 0 (by rw [hlen]; exact Nat.mod_lt _ (by omega))]
        have : vs.length - 0 = vs.length := by omega
        rw [this]
        exact congrArg some (getD_concat_length vs v 0).symm
      · have hne : vs.length % (cap + 1) ≠ (vs.length - cap) % (cap + 1) :=
          (mod_ne_of_dist_lt (by omega) (by omega)).symm
        rw [getD_set_ne data _ _ v 0 hne]
        have hd := hdata (vs.length - cap) (by omega) (by omega)
        rw [hd, getD_append_left vs [v] _ 0 (by omega)]

/-- Pushing a whole list preserves the history invariant. -/
theorem inv_pushAll (vs : List Nat) :
    ∀ (ys : List Nat) (q : SafelyOverflowingIndexQueue), Inv ys q →
      Inv (ys ++ vs) (q.pushAll vs) := by
  induction vs with
  | nil => intro ys q h; simpa [pushAll] using h
  | cons v vs ih =>
    intro ys q h
    have step := inv_push ys q v h
    have h2 := ih (ys ++ [v]) (q.push v).1 step.1
    simpa [pushAll, List.append_assoc] using h2

/-- Under the invariant the queue contents are the history values past the
read position. -/
theorem contents_of_inv {vs : List Nat} {q : SafelyOverflowingIndexQueue}
    (h : Inv vs q) : q.contents = vs.drop q.read_position := by
  obtain ⟨cap, data, w, r⟩ := q
  obtain ⟨hlen, hw, hr, hdata⟩ := h
  dsimp only at hlen hw hr
  subst hw
  subst hr
  simp only [atPos] at hdata
  try dsimp only at hdata
  simp only [contents, size, atPos]
  try dsimp only
  have hcong : ∀ i ∈ List.range (vs.length - (vs.length - min vs.length cap)),
      data.getD ((vs.length - min vs.length cap + i) % (cap + 1)) 0 =
        vs.getD (vs.length - min vs.length cap + i) 0 := by
    intro i hi
    have hi2 : i < vs.length - (vs.length - min vs.length cap) := List.mem_range.1 hi
    exact hdata _ (Nat.le_add_right _ _) (by omega)
  rw [List.map_congr_left hcong]
  exact rangeMap_getD_eq_drop vs (vs.length - min vs.length cap) (by omega)

end SafelyOverflowingIndexQueue

open SafelyOverflowingIndexQueue in
/-- C1: for the safely-overflowing SPSC index queue of capacity `C`, pushing
`v` after the history `vs`: while fewer than `C` values are held the push
appends `v` and returns `none`; once the queue is full the push appends `v`,
evicts the oldest element and returns it, so after `k > C` pushes
`v_1 … v_k` the returned element is `v_(k-C)` and the queue holds exactly
`v_(k-C+1) … v_k` in order. -/
theorem safely_overflowing_queue_push_spec (C : Nat) (vs : List Nat) (v : Nat) :
    (vs.length < C →
      (((new C).pushAll vs).push v).2 = none ∧
      (((new C).pushAll vs).push v).1.contents = vs ++ [v]) ∧
    (C ≤ vs.length →
      (((new C).pushAll vs).push v).2 = some ((vs ++ [v]).getD (vs.length - C) 0) ∧
      (((new C).pushAll vs).push v).1.contents = (vs ++ [v]).drop (vs.length + 1 - C)) := by
  have hcap : ((new C).pushAll vs).capacity = C := capacity_pushAll vs (new C)
  have hinv : Inv vs ((new C).pushAll vs) := by
    simpa using inv_pushAll vs [] (new C) (inv_new C)
  have hstep := inv_push vs ((new C).pushAll vs) v hinv
  have hcont := contents_of_inv hstep.1
  obtain ⟨hlen2, hw2, hr2, _⟩ := hstep.1
  constructor
  · intro hlt
    refine ⟨?_, ?_⟩
    · rw [hstep.2, hcap, if_pos hlt]
    · rw [hcont, hr2]
      have hz : (vs ++ [v]).length - min (vs ++ [v]).length (((new C).pushAll vs).push v).1.capacity = 0 := by
        rw [capacity_push, hcap]
        simp
        omega
      rw [hz, List.drop_zero]
  · intro hge
    refine ⟨?_, ?_⟩
    · rw [hstep.2, hcap, if_neg (by omega)]
    · rw [hcont, hr2]
      congr 1
      rw [capacity_push, hcap]
      simp
      omega

/-- Witness for C1: capacity 2, history `[10, 20, 30]`, pushing 40 evicts 20
and leaves `[30, 40]`. -/
theorem safely_overflowing_queue_push_spec_witness :
    (((SafelyOverflowingIndexQueue.new 2).pushAll [10, 20, 30]).push 40).2 = some 20 ∧
    (((SafelyOverflowingIndexQueue.new 2).pushAll [10, 20, 30]).push 40).1.contents
      = [30, 40] := by
  have h := (safely_overflowing_queue_push_spec 2 [10, 20, 30] 40).2 (by decide)
  refine ⟨?_, ?_⟩
  · rw [h.1]; decide
  · rw [h.2]; decide

/-! ### Plain SPSC index queue (`elkodon_bb/lock_free/src/spsc/index_queue.rs`)

The Rust struct stores `capacity` cells; `at(p)` reads cell `p % capacity`.
`push` returns `false` and leaves the queue untouched when full; `pop`
returns `none` when empty. -/

structure IndexQueue where
  capacity : Nat
  data : List Nat
  write_position : Nat
  read_position : Nat
deriving DecidableEq

namespace IndexQueue

/-- `IndexQueue::new(capacity)`: `capacity` zeroed cells. -/
def new (capacity : Nat) : IndexQueue :=
  { capacity := capacity
    data := List.replicate capacity 0
    write_position := 0
    read_position := 0 }

/-- `at(position)`: the cell at `position % capacity`. -/
def atPos (q : IndexQueue) (position : Nat) : Nat :=
  q.data.getD (position % q.capacity) 0

/-- `push(value)`: full check, then write the value and advance the write
position. -/
def push (q : IndexQueue) (value : Nat) : IndexQueue × Bool :=
  if q.write_position = q.read_position + q.capacity then (q, false)
  else
    ({ q with
        data := q.data.set (q.write_position % q.capacity) value
        write_position := q.write_position + 1 }, true)

/-- `pop()`: empty check, then read the slot and advance the read position. -/
def pop (q : IndexQueue) : IndexQueue × Option Nat :=
  if q.read_position = q.write_position then (q, none)
  else ({ q with read_position := q.read_position + 1 }, some (q.atPos q.read_position))

/-- `len()`. -/
def size (q : IndexQueue) : Nat := q.write_position - q.read_position

/-- The values currently held, oldest first. -/
def contents (q : IndexQueue) : List Nat :=
  (List.range q.size).map (fun i => q.atPos (q.read_position + i))

/-- Well-formedness of a queue state: the cell array has length `capacity`
and the cursors are at most `capacity` apart. -/
def Wf (q : IndexQueue) : Prop :=
  q.data.length = q.capacity ∧
  q.read_position ≤ q.write_position ∧
  q.write_position ≤ q.read_position + q.capacity

theorem wf_new (C : Nat) : Wf (new C) := by
  refine ⟨by simp [new], by simp [new], by simp [new]⟩

theorem contents_new (C : Nat) : (new C).contents = [] := by
  simp [contents, size, new]

/-- A full `push` fails and leaves the queue untouched. -/
theorem push_full (q : IndexQueue) (v : Nat)
    (h : q.write_position = q.read_position + q.capacity) : q.push v = (q, false) := by
  simp [push, h]

/-- A non-full `push` succeeds, stays well-formed and appends the value. -/
theorem push_spec (q : IndexQueue) (v : Nat) (hwf : Wf q) (h : q.size ≠ q.capacity) :
    (q.push v).2 = true ∧ Wf (q.push v).1 ∧
      (q.push v).1.contents = q.contents ++ [v] := by
  obtain ⟨cap, data, w, r⟩ := q
  obtain ⟨hlen, hrw, hwc⟩ := hwf
  try dsimp only at hlen hrw hwc
  simp only [size] at h
  try dsimp only at h
  have hcappos : 0 < cap := by omega
  have hnotfull : ¬ w = r + cap := by omega
  simp only [push]
  rw [if_neg hnotfull]
  refine ⟨rfl, ⟨by simpa using hlen, by dsimp only; omega, by dsimp only; omega⟩, ?_⟩
  simp only [contents, size, atPos]
  try dsimp only
  have hsz : w + 1 - r = (w - r) + 1 := by omega
  rw [hsz, List.range_succ, List.map_append]
  congr 1
  · apply List.map_congr_left
    intro i hi
    have hi2 : i < w - r := List.mem_range.1 hi
    have hne : w % cap ≠ (r + i) % cap :=
      (mod_ne_of_dist_lt (by omega) (by omega)).symm
    rw [getD_set_ne data _ _ v 0 hne]
  · have hidx : r + (w - r) = w := by omega
    simp only [List.map_cons, List.map_nil]
    rw [hidx, getD_set_eq data _ v 0 (by rw [hlen]; exact Nat.mod_lt _ hcappos)]

/-- A non-empty `pop` returns the oldest value, stays well-formed and removes
that value from the front. -/
theorem pop_spec (q : IndexQueue) (hwf : Wf q) (h : q.size ≠ 0) :
    (q.pop).2 = some (q.atPos q.read_position) ∧ Wf (q.pop).1 ∧
      q.contents = q.atPos q.read_position :: (q.pop).1.contents := by
  obtain ⟨cap, data, w, r⟩ := q
  obtain ⟨hlen, hrw, hwc⟩ := hwf
  try dsimp only at hlen hrw hwc
  simp only [size] at h
  try dsimp only at h
  have hne : ¬ r = w := by omega
  simp only [pop]
  rw [if_neg hne]
  refine ⟨rfl, ⟨by simpa using hlen, by dsimp only; omega, by dsimp only; omega⟩, ?_⟩
  simp only [contents, size, atPos]
  try dsimp only
  have hsz : w - r = (w - (r + 1)) + 1 := by omega
  rw [hsz, List.range_succ_eq_map, List.map_cons, List.map_map]
  simp only [Nat.add_zero]
  congr 1
  apply List.map_congr_left
  intro i hi
  have hadd : r + (i + 1) = r + 1 + i := by omega
  simp only [Function.comp_apply, Nat.succ_eq_add_one, hadd]

end IndexQueue

/-! ### Single-producer single-consumer runs of the plain index queue -/

/-- An operation performed on the queue: a producer `push` or a consumer
`pop`. -/
inductive SpscOp where
  | push (value : Nat)
  | pop
deriving DecidableEq

/-- A run: the queue together with the values pushed successfully (push
returned `true`) and the values returned by successful pops. -/
structure SpscRun where
  queue : IndexQueue
  pushed_ok : List Nat
  popped : List Nat

/-- Execute one operation. -/
def stepOp (s : SpscRun) (op : SpscOp) : SpscRun :=
  match op with
  | .push v =>
    let res := s.queue.push v
    { queue := res.1
      pushed_ok := if res.2 then s.pushed_ok ++ [v] else s.pushed_ok
      popped := s.popped }
  | .pop =>
    let res := s.queue.pop
    { queue := res.1
      pushed_ok := s.pushed_ok
      popped :=
        match res.2 with
        | some w => s.popped ++ [w]
        | none => s.popped }

/-- Execute a whole sequence of operations against a fresh queue of capacity
`C`. -/
def run (C : Nat) (ops : List SpscOp) : SpscRun :=
  ops.foldl stepOp { queue := IndexQueue.new C, pushed_ok := [], popped := [] }

/-- Run invariant: the popped values followed by the values still queued are
exactly the successfully pushed values. -/
def RunInv (s : SpscRun) : Prop :=
  IndexQueue.Wf s.queue ∧ s.popped ++ s.queue.contents = s.pushed_ok

theorem runInv_step (s : SpscRun) (op : SpscOp) (h : RunInv s) :
    RunInv (stepOp s op) := by
  obtain ⟨hwf, hinv⟩ := h
  cases op with
  | push v =>
    by_cases hfull : s.queue.size = s.queue.capacity
    · have hwfull : s.queue.write_position = s.queue.read_position + s.queue.capacity := by
        obtain ⟨h1, h2, h3⟩ := hwf
        simp only [IndexQueue.size] at hfull
        omega
      have hp := IndexQueue.push_full s.queue v hwfull
      refine ⟨?_, ?_⟩ <;> simp [stepOp, hp, hwf, hinv]
    · obtain ⟨h1, h2, h3⟩ := IndexQueue.push_spec s.queue v hwf hfull
      refine ⟨?_, ?_⟩
      · simpa [stepOp] using h2
      · simp only [stepOp, h1, h3, if_true]
        rw [← List.append_assoc, hinv]
  | pop =>
    by_cases hempty : s.queue.size = 0
    · have hrw : s.queue.read_position = s.queue.write_position := by
        obtain ⟨h1, h2, h3⟩ := hwf
        simp only [IndexQueue.size] at hempty
        omega
      have hp : s.queue.pop = (s.queue, none) := by simp [IndexQueue.pop, hrw]
      refine ⟨?_, ?_⟩ <;> simp [stepOp, hp, hwf, hinv]
    · obtain ⟨h1, h2, h3⟩ := IndexQueue.pop_spec s.queue hwf hempty
      refine ⟨?_, ?_⟩
      · simpa [stepOp] using h2
      · simp only [stepOp, h1]
        rw [← hinv, h3]
        simp

theorem runInv_foldl (ops : List SpscOp) :
    ∀ s : SpscRun, RunInv s → RunInv (ops.foldl stepOp s) := by
  induction ops with
  | nil => intro s h; exact h
  | cons op ops ih =>
    intro s h
    exact ih (stepOp s op) (runInv_step s op h)

theorem runInv_run (C : Nat) (ops : List SpscOp) : RunInv (run C ops) := by
  apply runInv_foldl
  exact ⟨IndexQueue.wf_new C, by simp [IndexQueue.contents_new]⟩

/-- C2: for the plain SPSC index queue, `push` fails and leaves the queue
unchanged exactly on a full queue and otherwise appends its value; `pop`
returns `none` exactly on the empty queue; and over any operation sequence
the successfully popped values are an in-order initial segment of the
successfully pushed values. -/
theorem index_queue_spec :
    (∀ (q : IndexQueue) (v : Nat), IndexQueue.Wf q →
      (((q.push v).2 = false ∧ (q.push v).1 = q) ↔ q.size = q.capacity) ∧
      (q.size ≠ q.capacity →
        (q.push v).2 = true ∧ (q.push v).1.contents = q.contents ++ [v])) ∧
    (∀ q : IndexQueue, IndexQueue.Wf q → ((q.pop).2 = none ↔ q.contents = [])) ∧
    (∀ (C : Nat) (ops : List SpscOp),
      ∃ rest, (run C ops).popped ++ rest = (run C ops).pushed_ok) := by
  refine ⟨?_, ?_, ?_⟩
  · intro q v hwf
    constructor
    · constructor
      · intro hfb
        by_contra hne
        have := (IndexQueue.push_spec q v hwf hne).1
        rw [hfb.1] at this
        exact Bool.false_ne_true this
      · intro hfull
        have hwfull : q.write_position = q.read_position + q.capacity := by
          obtain ⟨h1, h2, h3⟩ := hwf
          simp only [IndexQueue.size] at hfull
          omega
        have hp := IndexQueue.push_full q v hwfull
        rw [hp]
        exact ⟨rfl, rfl⟩
    · intro hne
      have h := IndexQueue.push_spec q v hwf hne
      exact ⟨h.1, h.2.2⟩
  · intro q hwf
    have hcont : q.contents = [] ↔ q.size = 0 := by
      simp [IndexQueue.contents, List.range_eq_nil]
    constructor
    · intro hnone
      rw [hcont]
      by_contra hne
      have := (IndexQueue.pop_spec q hwf hne).1
      rw [hnone] at this
      exact Option.noConfusion this
    · intro hnil
      have hsz := hcont.1 hnil
      have hrw : q.read_position = q.write_position := by
        obtain ⟨h1, h2, h3⟩ := hwf
        simp only [IndexQueue.size] at hsz
        omega
      simp [IndexQueue.pop, hrw]
  · intro C ops
    have h := (runInv_run C ops).2
    exact ⟨(run C ops).queue.contents, h⟩

/-- Witness for C2: a full queue of capacity 2 refuses a push; the popped
values of a concrete interleaved run are an initial segment of the
successfully pushed ones. -/
theorem index_queue_spec_witness :
    ((({ capacity := 2, data := [7, 8], write_position := 2, read_position := 0 } :
        IndexQueue).push 9).2 = false ∧
      (({ capacity := 2, data := [7, 8], write_position := 2, read_position := 0 } :
        IndexQueue).push 9).1 =
        { capacity := 2, data := [7, 8], write_position := 2, read_position := 0 }) ∧
    ∃ rest,
      (run 1 [SpscOp.push 5, SpscOp.push 6, SpscOp.pop, SpscOp.push 7]).popped ++ rest =
        (run 1 [SpscOp.push 5, SpscOp.push 6, SpscOp.pop, SpscOp.push 7]).pushed_ok := by
  refine ⟨?_, index_queue_spec.2.2 1 _⟩
  exact ((index_queue_spec.1 _ 9 ⟨rfl, by decide, by decide⟩).1).mpr (by decide)

/-! ### Dynamic config reference counter
(`elkodon/src/service/dynamic_config/mod.rs`)

The counter is an `AtomicU64`; both operations are CAS loops, so in the
embedding each is a single atomic state transition on the observed value.
`MARKED_FOR_DESTRUCTION` is `u64::MAX - 1`. -/

/-- `const MARKED_FOR_DESTRUCTION: u64 = u64::MAX - 1`. -/
def MARKED_FOR_DESTRUCTION : Nat := 2 ^ 64 - 2

/-- `DecrementReferenceCounterResult`. -/
inductive DecrementReferenceCounterResult where
  | HasOwners
  | NoMoreOwners
deriving DecidableEq

/-- `DynamicConfig::increment_reference_counter`: refuse (leaving the counter
unchanged) when the sentinel is observed, otherwise add one (u64
arithmetic). -/
def increment_reference_counter (counter : Nat) : Nat × Except Unit Unit :=
  if counter = MARKED_FOR_DESTRUCTION then (counter, .error ())
  else ((counter + 1) % 2 ^ 64, .ok ())

/-- `DynamicConfig::decrement_reference_counter`: the successful CAS writes
the sentinel when the observed value is 1 and reports `NoMoreOwners`,
otherwise it writes `value - 1` (u64 wrapping subtraction) and reports
`HasOwners`. -/
def decrement_reference_counter (counter : Nat) :
    Nat × DecrementReferenceCounterResult :=
  if counter = 1 then (MARKED_FOR_DESTRUCTION, .NoMoreOwners)
  else ((counter + (2 ^ 64 - 1)) % 2 ^ 64, .HasOwners)

/-- C3: decrementing from 1 writes the destruction sentinel in the same
update and reports `NoMoreOwners`; decrementing from any larger value
subtracts one and reports `HasOwners`; incrementing from the sentinel fails
and leaves the counter unchanged. -/
theorem dynamic_config_reference_counter_spec :
    decrement_reference_counter 1 =
      (MARKED_FOR_DESTRUCTION, DecrementReferenceCounterResult.NoMoreOwners) ∧
    (∀ c : Nat, 1 < c → c < 2 ^ 64 →
      decrement_reference_counter c = (c - 1, DecrementReferenceCounterResult.HasOwners)) ∧
    increment_reference_counter MARKED_FOR_DESTRUCTION =
      (MARKED_FOR_DESTRUCTION, Except.error ()) := by
  refine ⟨rfl, ?_, rfl⟩
  intro c h1 h2
  simp only [decrement_reference_counter]
  rw [if_neg (by omega)]
  have hmod : (c + (2 ^ 64 - 1)) % 2 ^ 64 = c - 1 := by
    have h3 : c + (2 ^ 64 - 1) = (c - 1) + 2 ^ 64 := by omega
    rw [h3, Nat.add_mod_right]
    exact Nat.mod_eq_of_lt (by omega)
  rw [hmod]

/-- Witness for C3: decrementing from 5 yields 4 with `HasOwners`. -/
theorem dynamic_config_reference_counter_spec_witness :
    decrement_reference_counter 5 =
      (4, DecrementReferenceCounterResult.HasOwners) := by
  have h := dynamic_config_reference_counter_spec.2.1 5 (by norm_num) (by norm_num)
  simpa using h

/-! ### File-based static storage (`elkodon_cal/src/static_storage/file.rs`)

The storage is one file per name.  The embedding tracks the file's
permission and content; OS-level I/O failures (directory creation, short
writes, metadata read errors) are outside the model, so the corresponding
error branches of the source do not appear.  `Permission` is the POSIX
permission value used by the source through `elkodon_bb_posix` (not under
the sources at hand); only the distinctness of the named constants matters
here. -/

/-- Modelled from the spec: POSIX owner permission constants used by the
static storage (`Permission::OWNER_READ`, `OWNER_WRITE`, `OWNER_EXEC`,
`OWNER_ALL`); the `elkodon_bb_posix` definition is not among the sources.
They denote pairwise distinct permission bit sets. -/
inductive Permission where
  | OWNER_READ
  | OWNER_WRITE
  | OWNER_EXEC
  | OWNER_ALL
deriving DecidableEq

/-- `const FINAL_PERMISSIONS: Permission = Permission::OWNER_READ`. -/
def FINAL_PERMISSIONS : Permission := Permission.OWNER_READ

/-- The state of the static-storage file: its permission and content
bytes. -/
structure FsFile where
  permission : Permission
  content : List Nat
deriving DecidableEq

/-- A successfully opened storage: the file and the length reported to the
reader. -/
structure StaticStorage where
  file : FsFile
  len : Nat
deriving DecidableEq

inductive StaticStorageCreateError where
  | AlreadyExists
  | InsufficientPermissions
  | Creation
  | Write
deriving DecidableEq

inductive StaticStorageOpenError where
  | DoesNotExist
  | Read
  | IsLocked
deriving DecidableEq

/-- `Builder::create_locked` over the state of the target path (`none` when
no file exists): exclusive creation (`CreationMode::CreateExclusive`) with
permission `Permission::OWNER_ALL`; an existing file yields
`AlreadyExists`. -/
def create_locked (fs : Option FsFile) : Except StaticStorageCreateError FsFile :=
  match fs with
  | some _ => .error .AlreadyExists
  | none => .ok { permission := .OWNER_ALL, content := [] }

/-- `Locked::unlock(contents)`: write the full contents, then set the file's
permission to `FINAL_PERMISSIONS`; the resulting storage reports the
contents length. -/
def unlock (file : FsFile) (contents : List Nat) : StaticStorage :=
  let written : FsFile := { file with content := contents }
  let unlocked : FsFile := { written with permission := FINAL_PERMISSIONS }
  { file := unlocked, len := contents.length }

/-- `Builder::open` over the state of the target path: a missing file is
`DoesNotExist`; a file whose permission differs from `FINAL_PERMISSIONS` is
still locked (`IsLocked`); otherwise the storage is returned with the file
size as its length. -/
def open_storage (fs : Option FsFile) : Except StaticStorageOpenError StaticStorage :=
  match fs with
  | none => .error .DoesNotExist
  | some f =>
    if f.permission ≠ FINAL_PERMISSIONS then .error .IsLocked
    else .ok { file := f, len := f.content.length }

/-- C4 counterexample: `create_locked` creates the file with
`Permission::OWNER_ALL`, not with owner-write-only permissions. -/
theorem create_locked_not_owner_write_only :
    create_locked none =
      Except.ok { permission := Permission.OWNER_ALL, content := ([] : List Nat) } ∧
    Permission.OWNER_ALL ≠ Permission.OWNER_WRITE := by
  exact ⟨rfl, by decide⟩

/-- C4 (amended): `create_locked` creates the file exclusively with owner-all
permissions — which differ from `FINAL_PERMISSIONS`, so the file is in the
locked state — and returns `AlreadyExists` when the file exists; `unlock`
writes the full contents and changes the permission to owner-read-only, the
commit point. -/
theorem static_storage_create_protocol :
    (∀ f : FsFile, create_locked (some f) = Except.error StaticStorageCreateError.AlreadyExists) ∧
    (create_locked none =
        Except.ok { permission := Permission.OWNER_ALL, content := ([] : List Nat) } ∧
      Permission.OWNER_ALL ≠ FINAL_PERMISSIONS) ∧
    (∀ (f : FsFile) (contents : List Nat),
      unlock f contents =
        { file := { permission := FINAL_PERMISSIONS, content := contents },
          len := contents.length }) := by
  refine ⟨fun f => rfl, ⟨rfl, by decide⟩, fun f contents => rfl⟩

/-- C9: opening while the file's permission is not yet owner-read-only yields
the retryable `IsLocked` error and no storage; once the permission is
owner-read-only, open succeeds and reports the file's length. -/
theorem static_storage_open_spec :
    (∀ f : FsFile, f.permission ≠ FINAL_PERMISSIONS →
      open_storage (some f) = Except.error StaticStorageOpenError.IsLocked) ∧
    (∀ f : FsFile, f.permission = FINAL_PERMISSIONS →
      open_storage (some f) = Except.ok { file := f, len := f.content.length }) := by
  constructor
  · intro f h
    simp [open_storage, h]
  · intro f h
    simp [open_storage, h]

/-- Witness for C9: a freshly created (still locked) file yields `IsLocked`;
an unlocked file with three content bytes opens with length 3. -/
theorem static_storage_open_spec_witness :
    open_storage (some { permission := Permission.OWNER_ALL, content := [1, 2] }) =
      Except.error StaticStorageOpenError.IsLocked ∧
    open_storage (some { permission := Permission.OWNER_READ, content := [1, 2, 3] }) =
      Except.ok (⟨⟨Permission.OWNER_READ, [1, 2, 3]⟩, 3⟩ : StaticStorage) := by
  constructor
  · exact static_storage_open_spec.1 _ (by decide)
  · have h := static_storage_open_spec.2
      { permission := Permission.OWNER_READ, content := [1, 2, 3] } rfl
    simpa using h

/-! ### Zero-copy connection receiver and subscriber port
(`elkodon/src/port/subscriber.rs`)

The per-connection receiver lives in `elkodon_cal::zero_copy_connection`,
which is not among the sources at hand; its borrow accounting and retrieve
queue are modelled from the spec.  The submission and retrieve queues are
the plain SPSC index queues embedded above, as in the source. -/

inductive ZeroCopyReceiveError where
  | ReceiveWouldExceedMaxBorrowValue
deriving DecidableEq

inductive ZeroCopyReleaseError where
  | RetrieveBufferFull
deriving DecidableEq

structure ZeroCopyReceiver where
  submission : IndexQueue
  retrieve : IndexQueue
  borrow_counter : Nat
  max_borrowed_samples : Nat
deriving DecidableEq

/-- Modelled from the spec: `ZeroCopyConnection` receive — fails with
`ReceiveWouldExceedMaxBorrowValue` when the subscriber already holds
`max_borrowed_samples` borrowed samples, otherwise pops the submission queue
and counts a borrow on success. -/
def ZeroCopyReceiver.receive (r : ZeroCopyReceiver) :
    ZeroCopyReceiver × Except ZeroCopyReceiveError (Option Nat) :=
  if r.borrow_counter = r.max_borrowed_samples then
    (r, .error .ReceiveWouldExceedMaxBorrowValue)
  else
    match r.submission.pop with
    | (q, none) => ({ r with submission := q }, .ok none)
    | (q, some offset) =>
      ({ r with submission := q, borrow_counter := r.borrow_counter + 1 },
        .ok (some offset))

/-- Modelled from the spec: `ZeroCopyConnection` release — pushes the offset
onto the retrieve queue (failing with `RetrieveBufferFull` when it is full)
and returns a borrow on success. -/
def ZeroCopyReceiver.release (r : ZeroCopyReceiver) (offset : Nat) :
    Except ZeroCopyReleaseError ZeroCopyReceiver :=
  match r.retrieve.push offset with
  | (q, true) => .ok { r with retrieve := q, borrow_counter := r.borrow_counter - 1 }
  | (_, false) => .error .RetrieveBufferFull

/-- One entry of the subscriber's `PublisherConnections` table: the receiver
and the locally-mapped data segment's start address. -/
structure Connection where
  receiver : ZeroCopyReceiver
  data_segment_start : Nat
deriving DecidableEq

/-- The observable part of a received `Sample`: its channel id and the
absolute message address. -/
structure Sample where
  channel_id : Nat
  address : Nat
deriving DecidableEq

/-- Modelled from the spec: the subscriber-side connection failure payload
(`ConnectionFailure::OnlyPartialUpdate` in the spec's error table; the
defining module `publisher_connections.rs` is not among the sources). -/
inductive ConnectionFailure where
  | OnlyPartialUpdate
deriving DecidableEq

inductive ReceiveError where
  | ExceedsMaxBorrowedSamples
  | ConnectionFailure (failure : ConnectionFailure)
deriving DecidableEq

/-- `Subscriber::receive_from_connection`: receive on the connection;
a popped relative address is turned into an absolute one by adding the
connection's data segment start; the borrow-ceiling error surfaces as
`ExceedsMaxBorrowedSamples`. -/
def receive_from_connection (channel_id : Nat) (c : Connection) :
    Connection × Except ReceiveError (Option Sample) :=
  match c.receiver.receive with
  | (_, .error _) => (c, .error .ExceedsMaxBorrowedSamples)
  | (r, .ok none) => ({ c with receiver := r }, .ok none)
  | (r, .ok (some relative_addr)) =>
    ({ c with receiver := r },
      .ok (some { channel_id := channel_id,
                  address := relative_addr + c.data_segment_start }))

/-- The `for id in 0..len` loop of `Subscriber::receive`: visit the
connections in index order starting at `id`; the first connection whose
receive yields a sample (or an error) ends the scan. -/
def receive_scan :
    List (Option Connection) → Nat →
      List (Option Connection) × Except ReceiveError (Option Sample)
  | [], _ => ([], .ok none)
  | none :: rest, id =>
    let res := receive_scan rest (id + 1)
    (none :: res.1, res.2)
  | some c :: rest, id =>
    match receive_from_connection id c with
    | (c2, .error e) => (some c2 :: rest, .error e)
    | (c2, .ok (some sample)) => (some c2 :: rest, .ok (some sample))
    | (c2, .ok none) =>
      let res := receive_scan rest (id + 1)
      (some c2 :: res.1, res.2)

/-- `DegrationAction`. -/
inductive DegrationAction where
  | Ignore
  | Warn
  | Fail
deriving DecidableEq

/-- `Subscriber::populate_publisher_channels` over the registry snapshot
`slots` (`some id` per registered publisher): a failing connection is only a
warning without degradation callback (and with a callback returning
`Ignore`/`Warn`); a callback returning `Fail` propagates the failure. -/
def populate_publisher_channels (slots : List (Option Nat)) (can_connect : Nat → Bool)
    (degration_callback : Option (Nat → DegrationAction)) :
    Except ConnectionFailure Unit :=
  match slots with
  | [] => .ok ()
  | none :: rest => populate_publisher_channels rest can_connect degration_callback
  | some publisher_id :: rest =>
    if can_connect publisher_id then
      populate_publisher_channels rest can_connect degration_callback
    else
      match degration_callback with
      | none => populate_publisher_channels rest can_connect degration_callback
      | some cb =>
        match cb publisher_id with
        | .Fail => .error .OnlyPartialUpdate
        | _ => populate_publisher_channels rest can_connect degration_callback

/-- `Subscriber::update_connections`: reconcile only when the membership
snapshot changed. -/
def subscriber_update_connections (membership_changed : Bool)
    (slots : List (Option Nat)) (can_connect : Nat → Bool)
    (degration_callback : Option (Nat → DegrationAction)) :
    Except ConnectionFailure Unit :=
  if membership_changed then
    populate_publisher_channels slots can_connect degration_callback
  else .ok ()

/-- `Subscriber::receive`: a failing `update_connections` is returned as
`ReceiveError::ConnectionFailure`; otherwise the connections are scanned
from index 0. -/
def subscriber_receive (membership_changed : Bool) (slots : List (Option Nat))
    (can_connect : Nat → Bool) (degration_callback : Option (Nat → DegrationAction))
    (connections : List (Option Connection)) :
    List (Option Connection) × Except ReceiveError (Option Sample) :=
  match subscriber_update_connections membership_changed slots can_connect
      degration_callback with
  | .error e => (connections, .error (.ConnectionFailure e))
  | .ok () => receive_scan connections 0

/-- `Subscriber::release_sample` outcome: the offset is pushed back, the
sample is discarded with a warning, or the process aborts fatally. -/
inductive ReleaseOutcome where
  | released
  | discarded_with_warning
  | fatal_abort
deriving DecidableEq

/-- `Subscriber::release_sample`: a missing connection discards the sample
with a warning; otherwise the distance to the data segment start is released
onto the retrieve queue, and `RetrieveBufferFull` is a fatal panic. -/
def release_sample (connections : List (Option Connection)) (channel_id : Nat)
    (message_addr : Nat) : List (Option Connection) × ReleaseOutcome :=
  match connections.getD channel_id none with
  | some c =>
    let distance := message_addr - c.data_segment_start
    match c.receiver.release distance with
    | .ok r2 => (connections.set channel_id (some { c with receiver := r2 }), .released)
    | .error _ => (connections, .fatal_abort)
  | none => (connections, .discarded_with_warning)

/-! ### Notifier port (`elkodon/src/port/notifier.rs`) -/

inductive NotifierConnectionUpdateFailure where
  | OnlyPartialUpdate
deriving DecidableEq

/-- `Notifier::populate_listener_channels` over the registry snapshot: the
first listener whose event channel cannot be opened fails the whole pass. -/
def populate_listener_channels (slots : List (Option Nat)) (can_open : Nat → Bool) :
    Except Unit Unit :=
  match slots with
  | [] => .ok ()
  | none :: rest => populate_listener_channels rest can_open
  | some listener_id :: rest =>
    if can_open listener_id then populate_listener_channels rest can_open
    else .error ()

/-- `Notifier::update_connections`: a failing populate pass surfaces as
`OnlyPartialUpdate`. -/
def notifier_update_connections (membership_changed : Bool)
    (slots : List (Option Nat)) (can_open : Nat → Bool) :
    Except NotifierConnectionUpdateFailure Unit :=
  if membership_changed then
    match populate_listener_channels slots can_open with
    | .error _ => .error .OnlyPartialUpdate
    | .ok () => .ok ()
  else .ok ()

/-- `Notifier::notify_with_custom_trigger_id`: a failing
`update_connections` is returned to the caller; otherwise every open
connection is triggered (individual notify failures only warn) and the
number of triggered listeners is returned. -/
def notify (membership_changed : Bool) (slots : List (Option Nat))
    (can_open : Nat → Bool) (connections : List (Option Nat))
    (accepts : Nat → Bool) : Except NotifierConnectionUpdateFailure Nat :=
  match notifier_update_connections membership_changed slots can_open with
  | .error e => .error e
  | .ok () =>
    .ok (connections.foldl
      (fun n conn =>
        match conn with
        | some listener_id => if accepts listener_id then n + 1 else n
        | none => n) 0)

/-! ### Port construction order (`Subscriber::new`, `Notifier::new`) -/

/-- The two construction phases whose order the spec fixes. -/
inductive PortCtorStep where
  | populate_connections
  | register_in_dynamic_config
deriving DecidableEq

/-- A dynamic-config id registry of bounded capacity (`add_subscriber_id` /
`add_notifier_id` return `None` when no free slot remains). -/
structure IdRegistry where
  capacity : Nat
  ids : List Nat
deriving DecidableEq

def IdRegistry.add (r : IdRegistry) (id : Nat) : Option IdRegistry :=
  if r.ids.length < r.capacity then some { r with ids := r.ids ++ [id] } else none

inductive NotifierCreateError where
  | ExceedsMaxSupportedNotifiers
deriving DecidableEq

inductive SubscriberCreateError where
  | ExceedsMaxSupportedSubscribers
deriving DecidableEq

/-- The order of the two construction phases of `Notifier::new`: despite the
comment that the registration must be the last task, `add_notifier_id` is
performed first and `populate_listener_channels` runs afterwards (its
failure only warns). -/
def notifier_new (notifiers : IdRegistry) (port_id : Nat) :
    Except NotifierCreateError (IdRegistry × List PortCtorStep) :=
  match notifiers.add port_id with
  | none => .error .ExceedsMaxSupportedNotifiers
  | some updated =>
    .ok (updated, [.register_in_dynamic_config] ++ [.populate_connections])

/-- The order of the two construction phases of `Subscriber::new`:
`populate_publisher_channels` runs first (its failure only warns) and the
registration `add_subscriber_id` is the final step. -/
def subscriber_new (subscribers : IdRegistry) (port_id : Nat) :
    Except SubscriberCreateError (IdRegistry × List PortCtorStep) :=
  match subscribers.add port_id with
  | none => .error .ExceedsMaxSupportedSubscribers
  | some updated =>
    .ok (updated, [.populate_connections] ++ [.register_in_dynamic_config])

/-! ### Claim theorems for the port layer -/

/-- C5: in `Notifier::new` the dynamic-config registration precedes the
connection population (contradicting the spec's ordering rule and the
source's own comment), while `Subscriber::new` registers last. -/
theorem notifier_new_registers_before_populate :
    notifier_new { capacity := 1, ids := [] } 7 =
      Except.ok ({ capacity := 1, ids := [7] },
        [PortCtorStep.register_in_dynamic_config, PortCtorStep.populate_connections]) ∧
    subscriber_new { capacity := 1, ids := [] } 7 =
      Except.ok ({ capacity := 1, ids := [7] },
        [PortCtorStep.populate_connections, PortCtorStep.register_in_dynamic_config]) :=
  ⟨rfl, rfl⟩

/-- Without a degradation callback every failing publisher connection is
only a warning: the populate pass succeeds. -/
theorem populate_publisher_channels_no_callback_ok (slots : List (Option Nat))
    (can_connect : Nat → Bool) :
    populate_publisher_channels slots can_connect none = Except.ok () := by
  induction slots with
  | nil => rfl
  | cons slot rest ih =>
    cases slot with
    | none => simpa [populate_publisher_channels] using ih
    | some id =>
      by_cases h : can_connect id <;> simp [populate_publisher_channels, h, ih]

/-- The notifier's populate pass fails as soon as one registered listener
cannot be opened. -/
theorem populate_listener_channels_fails (slots : List (Option Nat))
    (can_open : Nat → Bool) :
    (∃ id, some id ∈ slots ∧ can_open id = false) →
    populate_listener_channels slots can_open = Except.error () := by
  induction slots with
  | nil =>
    rintro ⟨id, hmem, _⟩
    simp at hmem
  | cons slot rest ih =>
    rintro ⟨id, hmem, hfail⟩
    rcases List.mem_cons.1 hmem with heq | hmem2
    · rw [← heq]
      simp [populate_listener_channels, hfail]
    · cases slot with
      | none => simpa [populate_listener_channels] using ih ⟨id, hmem2, hfail⟩
      | some id2 =>
        by_cases h2 : can_open id2
        · simpa [populate_listener_channels, h2] using ih ⟨id, hmem2, hfail⟩
        · simp [populate_listener_channels, h2]

/-- C6 counterexample: a notify whose reconciliation pass fails for one
listener returns the error `OnlyPartialUpdate` to the caller instead of
completing as a degraded success. -/
theorem notify_partial_update_is_error :
    notify true [some 5] (fun _ => false) [] (fun _ => true) =
      Except.error NotifierConnectionUpdateFailure.OnlyPartialUpdate := rfl

/-- C6 (amended): a failing peer during the reconciliation pass is a warning
for the subscriber without a `Fail` degradation callback — receive simply
proceeds with the connection scan — while the notifier returns
`NotifierConnectionUpdateFailure::OnlyPartialUpdate` from `notify` to the
caller. -/
theorem reconciliation_failure_spec :
    (∀ (membership_changed : Bool) (slots : List (Option Nat))
        (can_connect : Nat → Bool) (conns : List (Option Connection)),
      subscriber_receive membership_changed slots can_connect none conns =
        receive_scan conns 0) ∧
    (∀ (slots : List (Option Nat)) (can_open : Nat → Bool)
        (conns : List (Option Nat)) (accepts : Nat → Bool),
      (∃ id, some id ∈ slots ∧ can_open id = false) →
      notify true slots can_open conns accepts =
        Except.error NotifierConnectionUpdateFailure.OnlyPartialUpdate) := by
  constructor
  · intro mc slots can_connect conns
    cases mc <;>
      simp [subscriber_receive, subscriber_update_connections,
        populate_publisher_channels_no_callback_ok]
  · intro slots can_open conns accepts hex
    have h := populate_listener_channels_fails slots can_open hex
    simp [notify, notifier_update_connections, h]

/-- Witness for C6: a subscriber whose only publisher cannot be connected
still scans; a notifier with one broken listener errors. -/
theorem reconciliation_failure_spec_witness :
    subscriber_receive true [some 3] (fun _ => false) none [] = receive_scan [] 0 ∧
    notify true [some 5, none] (fun _ => false) [some 1] (fun _ => true) =
      Except.error NotifierConnectionUpdateFailure.OnlyPartialUpdate := by
  exact ⟨reconciliation_failure_spec.1 true [some 3] (fun _ => false) [],
    reconciliation_failure_spec.2 [some 5, none] (fun _ => false) [some 1]
      (fun _ => true) ⟨5, by simp, rfl⟩⟩

/-- A connection that is skipped by the scan: absent, or below the borrow
ceiling with an empty submission queue. -/
def Skips (oc : Option Connection) : Prop :=
  oc = none ∨ ∃ c, oc = some c ∧
    c.receiver.borrow_counter ≠ c.receiver.max_borrowed_samples ∧
    c.receiver.submission.read_position = c.receiver.submission.write_position

theorem receive_from_connection_empty (id : Nat) (c : Connection)
    (hb : c.receiver.borrow_counter ≠ c.receiver.max_borrowed_samples)
    (he : c.receiver.submission.read_position = c.receiver.submission.write_position) :
    receive_from_connection id c = (c, Except.ok none) := by
  have hpop : c.receiver.submission.pop = (c.receiver.submission, none) := by
    simp [IndexQueue.pop, he]
  have hrec : c.receiver.receive = (c.receiver, Except.ok none) := by
    simp [ZeroCopyReceiver.receive, hb, hpop]
  simp [receive_from_connection, hrec]

theorem receive_from_connection_some (id : Nat) (c : Connection)
    (q : IndexQueue) (offset : Nat)
    (hb : c.receiver.borrow_counter ≠ c.receiver.max_borrowed_samples)
    (hpop : c.receiver.submission.pop = (q, some offset)) :
    receive_from_connection id c =
      ({ c with receiver := { c.receiver with
            submission := q
            borrow_counter := c.receiver.borrow_counter + 1 } },
        Except.ok
          (some { channel_id := id, address := offset + c.data_segment_start })) := by
  have hrec : c.receiver.receive = ({ c.receiver with
        submission := q
        borrow_counter := c.receiver.borrow_counter + 1 },
      Except.ok (some offset)) := by
    simp [ZeroCopyReceiver.receive, hb, hpop]
  simp [receive_from_connection, hrec]

/-- The scan returns the sample of the first connection whose submission
queue is non-empty, at channel `start + i`. -/
theorem receive_scan_first (i : Nat) :
    ∀ (conns : List (Option Connection)) (start : Nat),
      (∀ j, j < i → Skips (conns.getD j none)) →
      ∀ (c : Connection) (q : IndexQueue) (offset : Nat),
        conns.getD i none = some c →
        c.receiver.borrow_counter ≠ c.receiver.max_borrowed_samples →
        c.receiver.submission.pop = (q, some offset) →
        (receive_scan conns start).2 =
          Except.ok
            (some { channel_id := start + i, address := offset + c.data_segment_start }) := by
  induction i with
  | zero =>
    intro conns start hskip c q offset hget hb hpop
    cases conns with
    | nil => simp at hget
    | cons head rest =>
      have hhead : head = some c := by simpa using hget
      subst hhead
      have hrc := receive_from_connection_some start c q offset hb hpop
      simp [receive_scan, hrc]
  | succ i ih =>
    intro conns start hskip c q offset hget hb hpop
    cases conns with
    | nil => simp at hget
    | cons head rest =>
      have hget2 : rest.getD i none = some c := by simpa using hget
      have hrest : (receive_scan rest (start + 1)).2 =
          Except.ok
            (some { channel_id := start + 1 + i, address := offset + c.data_segment_start }) := by
        apply ih rest (start + 1) ?_ c q offset hget2 hb hpop
        intro j hj
        have hs := hskip (j + 1) (by omega)
        simpa using hs
      have harith : start + 1 + i = start + (i + 1) := by omega
      rw [harith] at hrest
      have hskip0 := hskip 0 (by omega)
      rcases hskip0 with hnone | ⟨c0, heq, hb0, he0⟩
      · have hh : head = none := by simpa using hnone
        subst hh
        simp [receive_scan, hrest]
      · have hh : head = some c0 := by simpa using heq
        subst hh
        have hrc := receive_from_connection_empty start c0 hb0 he0
        simp [receive_scan, hrc, hrest]

/-- C7 (amended): every `receive` call scans the connections in index order
starting at index 0 — there is no round-robin cursor — and returns the
sample of the first connection whose submission pop yields an offset, with
the absolute address formed by adding the connection's locally-mapped data
segment start. -/
theorem subscriber_receive_scan_spec :
    (∀ (slots : List (Option Nat)) (can_connect : Nat → Bool)
        (dc : Option (Nat → DegrationAction)) (conns : List (Option Connection)),
      subscriber_receive false slots can_connect dc conns = receive_scan conns 0) ∧
    (∀ (i : Nat) (conns : List (Option Connection)) (c : Connection)
        (q : IndexQueue) (offset : Nat),
      (∀ j, j < i → Skips (conns.getD j none)) →
      conns.getD i none = some c →
      c.receiver.borrow_counter ≠ c.receiver.max_borrowed_samples →
      c.receiver.submission.pop = (q, some offset) →
      (receive_scan conns 0).2 =
        Except.ok
          (some { channel_id := i, address := offset + c.data_segment_start })) := by
  constructor
  · intro slots cc dc conns
    simp [subscriber_receive, subscriber_update_connections]
  · intro i conns c q offset hskip hget hb hpop
    have h := receive_scan_first i conns 0 hskip c q offset hget hb hpop
    simpa using h

/-- A demonstration submission queue holding the given values. -/
def demo_queue (vals : List Nat) : IndexQueue :=
  { capacity := 4
    data := vals ++ List.replicate (4 - vals.length) 0
    write_position := vals.length
    read_position := 0 }

/-- A demonstration connection holding the given submitted offsets. -/
def demo_conn (vals : List Nat) (base : Nat) : Connection :=
  { receiver :=
      { submission := demo_queue vals
        retrieve := IndexQueue.new 4
        borrow_counter := 0
        max_borrowed_samples := 10 }
    data_segment_start := base }

/-- Two connections, both non-empty. -/
def demo_conns : List (Option Connection) :=
  [some (demo_conn [10, 11] 1000), some (demo_conn [20] 2000)]

/-- C7 counterexample: with two non-empty connections, two successive
`receive` calls both take from connection 0 — the scan restarts at the same
connection every time, so there is no round-robin cursor. -/
theorem receive_not_round_robin :
    (subscriber_receive false [] (fun _ => true) none demo_conns).2 =
      Except.ok (some { channel_id := 0, address := 1010 }) ∧
    (subscriber_receive false [] (fun _ => true) none
        (subscriber_receive false [] (fun _ => true) none demo_conns).1).2 =
      Except.ok (some { channel_id := 0, address := 1011 }) := ⟨rfl, rfl⟩

/-- Witness for C7: the scan skips an absent connection 0 and returns the
sample of connection 1. -/
theorem subscriber_receive_scan_spec_witness :
    subscriber_receive false [] (fun _ => true) none demo_conns =
      receive_scan demo_conns 0 ∧
    (receive_scan [none, some (demo_conn [20] 2000)] 0).2 =
      Except.ok (some { channel_id := 1, address := 2020 }) := by
  refine ⟨subscriber_receive_scan_spec.1 [] (fun _ => true) none demo_conns, ?_⟩
  refine subscriber_receive_scan_spec.2 1 [none, some (demo_conn [20] 2000)]
    (demo_conn [20] 2000)
    { capacity := 4, data := [20, 0, 0, 0], write_position := 1, read_position := 1 }
    20 ?_ rfl (by decide) rfl
  intro j hj
  have hj0 : j = 0 := by omega
  subst hj0
  exact Or.inl rfl

/-- C8: a receive on a connection whose borrow counter is at
`max_borrowed_samples` fails with `ExceedsMaxBorrowedSamples`, unchanged and
without retry; and a receive never pushes the borrow counter beyond the
ceiling. -/
theorem receive_exceeds_max_borrowed_samples :
    (∀ (channel_id : Nat) (c : Connection),
      c.receiver.borrow_counter = c.receiver.max_borrowed_samples →
      receive_from_connection channel_id c =
        (c, Except.error ReceiveError.ExceedsMaxBorrowedSamples)) ∧
    (∀ (channel_id : Nat) (c : Connection),
      c.receiver.borrow_counter ≤ c.receiver.max_borrowed_samples →
      (receive_from_connection channel_id c).1.receiver.borrow_counter ≤
        c.receiver.max_borrowed_samples) := by
  have herr : ∀ c : Connection,
      c.receiver.borrow_counter = c.receiver.max_borrowed_samples →
      c.receiver.receive =
        (c.receiver, Except.error ZeroCopyReceiveError.ReceiveWouldExceedMaxBorrowValue) := by
    intro c h
    simp [ZeroCopyReceiver.receive, h]
  constructor
  · intro id c h
    simp [receive_from_connection, herr c h]
  · intro id c h
    by_cases heq : c.receiver.borrow_counter = c.receiver.max_borrowed_samples
    · simp [receive_from_connection, herr c heq]
      omega
    · cases hpop : c.receiver.submission.pop with
      | mk q o =>
        cases o with
        | none =>
          simp [receive_from_connection, ZeroCopyReceiver.receive, heq, hpop]
          omega
        | some offset =>
          simp [receive_from_connection, ZeroCopyReceiver.receive, heq, hpop]
          omega

/-- A connection already holding `max_borrowed_samples` borrowed samples. -/
def demo_full_conn : Connection :=
  { receiver :=
      { submission := IndexQueue.new 2
        retrieve := IndexQueue.new 2
        borrow_counter := 2
        max_borrowed_samples := 2 }
    data_segment_start := 500 }

/-- Witness for C8: receiving at the ceiling fails and the counter stays at
the ceiling. -/
theorem receive_exceeds_max_borrowed_samples_witness :
    receive_from_connection 3 demo_full_conn =
      (demo_full_conn, Except.error ReceiveError.ExceedsMaxBorrowedSamples) ∧
    (receive_from_connection 3 demo_full_conn).1.receiver.borrow_counter ≤
      demo_full_conn.receiver.max_borrowed_samples := by
  exact ⟨receive_exceeds_max_borrowed_samples.1 3 demo_full_conn rfl,
    receive_exceeds_max_borrowed_samples.2 3 demo_full_conn (by decide)⟩

/-- C10: releasing a sample whose channel no longer resolves to a connection
discards it with a warning, leaving every connection untouched (the offset is
not pushed anywhere) and without aborting; a present connection with a full
retrieve queue is the only fatal case; otherwise the offset is released. -/
theorem release_sample_spec :
    (∀ (conns : List (Option Connection)) (channel_id addr : Nat),
      conns.getD channel_id none = none →
      release_sample conns channel_id addr =
        (conns, ReleaseOutcome.discarded_with_warning)) ∧
    (∀ (conns : List (Option Connection)) (channel_id addr : Nat) (c : Connection),
      conns.getD channel_id none = some c →
      c.receiver.retrieve.write_position =
        c.receiver.retrieve.read_position + c.receiver.retrieve.capacity →
      release_sample conns channel_id addr = (conns, ReleaseOutcome.fatal_abort)) ∧
    (∀ (conns : List (Option Connection)) (channel_id addr : Nat) (c : Connection),
      conns.getD channel_id none = some c →
      c.receiver.retrieve.write_position ≠
        c.receiver.retrieve.read_position + c.receiver.retrieve.capacity →
      (release_sample conns channel_id addr).2 = ReleaseOutcome.released) := by
  refine ⟨?_, ?_, ?_⟩
  · intro conns id addr h
    have h2 : conns[id]?.getD none = none := by
      simpa [List.getD_eq_getElem?_getD] using h
    simp [release_sample, List.getD_eq_getElem?_getD, h2]
  · intro conns id addr c h hfull
    have h2 : conns[id]?.getD none = some c := by
      simpa [List.getD_eq_getElem?_getD] using h
    have hrel : c.receiver.release (addr - c.data_segment_start) =
        Except.error ZeroCopyReleaseError.RetrieveBufferFull := by
      simp [ZeroCopyReceiver.release, IndexQueue.push_full _ _ hfull]
    simp [release_sample, List.getD_eq_getElem?_getD, h2, hrel]
  · intro conns id addr c h hnotfull
    have h2 : conns[id]?.getD none = some c := by
      simpa [List.getD_eq_getElem?_getD] using h
    have hp2 : (c.receiver.retrieve.push (addr - c.data_segment_start)).2 = true := by
      simp [IndexQueue.push, hnotfull]
    cases hp : c.receiver.retrieve.push (addr - c.data_segment_start) with
    | mk q b =>
      rw [hp] at hp2
      simp only at hp2
      subst hp2
      have hrel : c.receiver.release (addr - c.data_segment_start) =
          Except.ok { c.receiver with
            retrieve := q
            borrow_counter := c.receiver.borrow_counter - 1 } := by
        simp [ZeroCopyReceiver.release, hp]
      simp [release_sample, List.getD_eq_getElem?_getD, h2, hrel]

/-- A connection whose retrieve queue is full. -/
def demo_retrieve_full_conn : Connection :=
  { receiver :=
      { submission := IndexQueue.new 2
        retrieve := { capacity := 2, data := [1, 2], write_position := 2, read_position := 0 }
        borrow_counter := 1
        max_borrowed_samples := 2 }
    data_segment_start := 100 }

/-- Witness for C10: a resolvable channel with room releases; a stale channel
id discards with a warning; a full retrieve queue aborts. -/
theorem release_sample_spec_witness :
    release_sample demo_conns 5 1234 = (demo_conns, ReleaseOutcome.discarded_with_warning) ∧
    (release_sample demo_conns 0 1234).2 = ReleaseOutcome.released ∧
    release_sample [some demo_retrieve_full_conn] 0 1234 =
      ([some demo_retrieve_full_conn], ReleaseOutcome.fatal_abort) := by
  refine ⟨release_sample_spec.1 demo_conns 5 1234 (by decide), ?_, ?_⟩
  · exact release_sample_spec.2.2 demo_conns 0 1234 (demo_conn [10, 11] 1000)
      (by decide) (by decide)
  · exact release_sample_spec.2.1 [some demo_retrieve_full_conn] 0 1234
      demo_retrieve_full_conn (by decide) (by decide)

end Elkodon
